import Mathlib

/-!
Shallow embedding of gen_benchmark_report.py: a script that reads benchmark
records from a CSV file, aggregates them into a nested mapping
function name -> (selectors, facets) -> implementation -> gas, and renders
one Markdown table per recognized function name.

Python dicts are modelled as association lists with last-write-wins update
(upsert); the csv.DictReader row is modelled as the zip of the header with
the row's values; Python int(...) is modelled by pyInt; f-string thousands
formatting (val:,) is modelled by thousandsSep.
-/

namespace BenchReport

/-- Record parsed from one CSV data row (source lines 13-17). -/
structure Record where
  impl : String
  func : String
  facets : Int
  selectors : Int
  gas : Int
deriving DecidableEq

/-- Association-list lookup, the model of Python dict access d[k]. -/
def alookup [DecidableEq α] (k : α) : List (α × β) → Option β
  | [] => none
  | p :: rest => if p.1 = k then some p.2 else alookup k rest

/-- Association-list update, the model of Python dict assignment d[k] = v:
an existing binding for k is overwritten in place, otherwise (k, v) is
appended at the end, as in Python dict insertion order. -/
def upsert [DecidableEq α] (k : α) (v : β) : List (α × β) → List (α × β)
  | [] => [(k, v)]
  | p :: rest => if p.1 = k then (k, v) :: rest else p :: upsert k v rest

/-- Innermost level of the aggregation: implementation name -> gas. -/
abbrev ImplMap := List (String × Int)

/-- Middle level: (selectors, facets) -> implementation map. -/
abbrev FuncData := List ((Int × Int) × ImplMap)

/-- Outer level: function name -> middle level
(source line 8: data[function][(selectors, facets)][implementation] = gas). -/
abbrev Data := List (String × FuncData)

/-- One iteration of the csv ingest loop (source line 18):
data[func][(selectors, facets)][impl] = gas, with defaultdict semantics
(missing intermediate maps default to empty). -/
def ingestRecord (d : Data) (r : Record) : Data :=
  let fd := (alookup r.func d).getD []
  let im := (alookup (r.selectors, r.facets) fd).getD []
  upsert r.func (upsert (r.selectors, r.facets) (upsert r.impl r.gas im) fd) d

/-- Whole csv ingest loop (source lines 12-18) over an already-parsed row list. -/
def ingest (rows : List Record) : Data :=
  rows.foldl ingestRecord []

/-- Triple lookup into the aggregation: data[func][(selectors, facets)][impl],
read-only (no defaultdict insertion; the script only writes in the ingest loop). -/
def lookup3 (d : Data) (f : String) (k : Int × Int) (i : String) : Option Int :=
  alookup i ((alookup k ((alookup f d).getD [])).getD [])

/-- Comma grouping of a reversed digit list: after every three digits
(from the least significant end) a comma is inserted. -/
def groupRev : List Char → List Char
  | a :: b :: c :: d :: rest => a :: b :: c :: ',' :: groupRev (d :: rest)
  | l => l

/-- Model of Python format spec val:, on an int (source line 30):
thousands separators every three digits, sign in front. -/
def thousandsSep (i : Int) : String :=
  let s := String.mk (groupRev (toString i.natAbs).data.reverse).reverse
  if i < 0 then "-" ++ s else s

/-- Lexicographic order on (selectors, facets) keys: Python tuple comparison
used by sorted(rows.items()) in source line 25. -/
def keyLe (a b : Int × Int) : Prop :=
  a.1 < b.1 ∨ (a.1 = b.1 ∧ a.2 ≤ b.2)

/-- Strict lexicographic order on keys. -/
def keyLt (a b : Int × Int) : Prop :=
  a.1 < b.1 ∨ (a.1 = b.1 ∧ a.2 < b.2)

instance keyLe.dec : DecidableRel keyLe := fun a b =>
  inferInstanceAs (Decidable (a.1 < b.1 ∨ (a.1 = b.1 ∧ a.2 ≤ b.2)))

/-- Order on table rows by their (selectors, facets) key only; keys in the
aggregation are unique, so Python sorted never compares the dict values. -/
def rowLe (x y : (Int × Int) × ImplMap) : Prop := keyLe x.1 y.1

instance rowLe.dec : DecidableRel rowLe := fun x y =>
  inferInstanceAs (Decidable (keyLe x.1 y.1))

instance keyLe.total : IsTotal (Int × Int) keyLe where
  total := by
    intro a b
    unfold keyLe
    omega

instance keyLe.trans : IsTrans (Int × Int) keyLe where
  trans := by
    intro a b c hab hbc
    unfold keyLe at *
    omega

instance rowLe.total : IsTotal ((Int × Int) × ImplMap) rowLe where
  total := fun a b => keyLe.total.total a.1 b.1

instance rowLe.trans : IsTrans ((Int × Int) × ImplMap) rowLe where
  trans := fun _ _ _ hab hbc => keyLe.trans.trans _ _ _ hab hbc

/-- Model of sorted(rows.items()) in source line 25. -/
def sortKeyRows (rows : FuncData) : FuncData :=
  List.insertionSort rowLe rows

/-- Lexicographic (code point) comparison of character lists, reflexive version:
Python string comparison a <= b. -/
def charListLe : List Char → List Char → Bool
  | [], _ => true
  | _ :: _, [] => false
  | a :: as, b :: bs =>
    if a.toNat < b.toNat then true
    else if b.toNat < a.toNat then false
    else charListLe as bs

/-- Lexicographic (code point) comparison of character lists, strict version:
Python string comparison a < b. -/
def charListLt : List Char → List Char → Bool
  | [], [] => false
  | [], _ :: _ => true
  | _ :: _, [] => false
  | a :: as, b :: bs =>
    if a.toNat < b.toNat then true
    else if b.toNat < a.toNat then false
    else charListLt as bs

/-- Python string order (code-point lexicographic), non-strict. -/
def strLe (a b : String) : Prop := charListLe a.data b.data = true

/-- Python string order (code-point lexicographic), strict. -/
def strLt (a b : String) : Prop := charListLt a.data b.data = true

instance strLe.dec : DecidableRel strLe := fun a b =>
  inferInstanceAs (Decidable (charListLe a.data b.data = true))

instance strLe.total : IsTotal String strLe where
  total := by
    intro a b
    show charListLe a.data b.data = true ∨ charListLe b.data a.data = true
    generalize a.data = x
    generalize b.data = y
    induction x generalizing y with
    | nil => exact Or.inl rfl
    | cons c cs ih =>
      cases y with
      | nil => exact Or.inr rfl
      | cons d ds =>
        simp only [charListLe]
        by_cases h1 : c.toNat < d.toNat
        · exact Or.inl (by simp [h1])
        · by_cases h2 : d.toNat < c.toNat
          · exact Or.inr (by simp [h2, h1])
          · rcases ih ds with h | h
            · exact Or.inl (by simp [h1, h2, h])
            · exact Or.inr (by simp [h1, h2, h])

instance strLe.trans : IsTrans String strLe where
  trans := by
    intro a b c hab hbc
    show charListLe a.data c.data = true
    revert hab hbc
    show charListLe a.data b.data = true → charListLe b.data c.data = true →
      charListLe a.data c.data = true
    generalize a.data = x
    generalize b.data = y
    generalize c.data = z
    induction x generalizing y z with
    | nil => intro _ _; rfl
    | cons u us ih =>
      intro h1 h2
      cases y with
      | nil => exact absurd h1 (by simp [charListLe])
      | cons v vs =>
        cases z with
        | nil => exact absurd h2 (by simp [charListLe])
        | cons w ws =>
          simp only [charListLe] at h1 h2 ⊢
          by_cases huv : u.toNat < v.toNat
          · by_cases hvw : v.toNat < w.toNat
            · simp [Nat.lt_trans huv hvw]
            · by_cases hwv : w.toNat < v.toNat
              · simp [hvw, hwv] at h2
              · have huw : u.toNat < w.toNat := by omega
                simp [huw]
          · by_cases hvu : v.toNat < u.toNat
            · simp [huv, hvu] at h1
            · simp [huv, hvu] at h1
              by_cases hvw : v.toNat < w.toNat
              · have huw : u.toNat < w.toNat := by omega
                simp [huw]
              · by_cases hwv : w.toNat < v.toNat
                · simp [hvw, hwv] at h2
                · simp [hvw, hwv] at h2
                  have huw1 : ¬u.toNat < w.toNat := by omega
                  have huw2 : ¬w.toNat < u.toNat := by omega
                  simp [huw1, huw2]
                  exact ih vs ws h1 h2

/-- All implementation names occurring anywhere in the aggregation
(the set comprehension of source lines 36-38, before dedup and sort). -/
def allImpls (d : Data) : List String :=
  d.flatMap (fun fp => fp.2.flatMap (fun kp => kp.2.map (fun ip => ip.1)))

/-- Model of sorted({impl for ...}) (source lines 36-38): the distinct
implementation names, sorted lexicographically ascending by code point
(Python string order). -/
def implementationsOfData (d : Data) : List String :=
  List.insertionSort strLe (allImpls d).dedup

/-- Column set computed from the ingested input rows. -/
def implementationsOf (rows : List Record) : List String :=
  implementationsOfData (ingest rows)

/-- Table heading (source line 21). -/
def headingLine (funcName : String) : String :=
  "## " ++ funcName ++ " Function Gas Costs\n"

/-- Header row of the Markdown table (source line 22). -/
def headerLine (implementations : List String) : String :=
  "| Selectors/Facets | " ++ String.intercalate " | " implementations ++ " |"

/-- Dash run sized to one header cell (source line 23). -/
def dashesFor (h : String) : String :=
  String.mk (List.replicate h.length '-')

/-- Separator row of the Markdown table (source line 23). -/
def sepLine (implementations : List String) : String :=
  "|" ++ String.intercalate "|" (("Selectors/Facets" :: implementations).map dashesFor) ++ "|"

/-- One data cell (source lines 28-31): the thousands-separated measurement,
or empty text when the implementation has no value at this key. -/
def cellString (im : ImplMap) (impl : String) : String :=
  match alookup impl im with
  | some g => thousandsSep g
  | none => ""

/-- First cell of a data row (source line 26): "selectors/facets". -/
def keyCell (k : Int × Int) : String :=
  toString k.1 ++ "/" ++ toString k.2

/-- Cell list of one data row (source lines 26-31). -/
def dataCells (implementations : List String) (k : Int × Int) (im : ImplMap) : List String :=
  keyCell k :: implementations.map (cellString im)

/-- One rendered data row (source line 32). -/
def dataLine (implementations : List String) (p : (Int × Int) × ImplMap) : String :=
  "| " ++ String.intercalate " | " (dataCells implementations p.1 p.2) ++ " |"

/-- The md line list built by format_table (source lines 21-33). -/
def tableLines (funcName : String) (rows : FuncData) (implementations : List String) :
    List String :=
  ([headingLine funcName, headerLine implementations, sepLine implementations]
    ++ (sortKeyRows rows).map (dataLine implementations)) ++ ["\n---\n"]

/-- Model of format_table (source lines 20-34): the line list joined with newlines. -/
def format_table (funcName : String) (rows : FuncData) (implementations : List String) :
    String :=
  String.intercalate "\n" (tableLines funcName rows implementations)

/-- Rows recorded for one function: data[funcName], read at source lines 66-67
(the defaultdict yields the empty mapping when the function is absent). -/
def funcRowsOf (rows : List Record) (funcName : String) : FuncData :=
  (alookup funcName (ingest rows)).getD []

/-- Static document preamble (source lines 40-63), byte for byte. -/
def preamble : String :=
  "\n\n# Diamond Loupe Gas Benchmark Report\n    \n## Usage\n\n\n" ++
  "Run the following command to execute the benchmark and generate the .csv results:\n" ++
  "```bash\nforge script script/LoupeBenchmark.s.sol --gas-limit 1000000000000000000\n```\n\n" ++
  "Use a very high gas limit to avoid out-of-gas errors during execution.\n\n\n" ++
  "Then, convert the CSV results into a Markdown report (BENCHMARK_REPORT.md) with:\n\n" ++
  "```bash\npython3 gen_benchmark_report.py \n```\n" ++
  "    **Compiler Settings in foundry.toml:**\n    - Optimizer Runs: 20,000\"\n    - viaIR: Disabled\n"

/-- Full assembled document (source lines 40-67): preamble, then the table for
facets(), then the table for facetAddresses(), with one shared column list. -/
def renderReport (rows : List Record) : String :=
  let implementations := implementationsOf rows
  preamble
    ++ format_table "facets()" (funcRowsOf rows "facets()") implementations
    ++ format_table "facetAddresses()" (funcRowsOf rows "facetAddresses()") implementations

/-- Characters stripped by Python int() around a numeric literal. -/
def isPySpace (c : Char) : Bool :=
  c = ' ' || c = '\t' || c = '\n' || c = '\r' || c = '\x0b' || c = '\x0c'

/-- Digit-run parser for Python int(): decimal digits, with single underscores
permitted between digits (Python numeric literal grouping). -/
def digitsCore (acc : Nat) : List Char → Option Nat
  | [] => some acc
  | c :: rest =>
    if c.isDigit then digitsCore (10 * acc + (c.toNat - 48)) rest
    else if c = '_' then
      match rest with
      | [] => none
      | d :: rest2 =>
        if d.isDigit then digitsCore (10 * acc + (d.toNat - 48)) rest2 else none
    else none

/-- Unsigned part of Python int(): at least one leading digit. -/
def pyIntCore : List Char → Option Nat
  | [] => none
  | c :: rest => if c.isDigit then digitsCore (c.toNat - 48) rest else none

/-- Model of Python int(s) for base 10 (source lines 15-17): optional
surrounding whitespace, optional sign, then a digit run; anything else fails. -/
def pyInt (s : String) : Option Int :=
  let cs := ((s.data.dropWhile isPySpace).reverse.dropWhile isPySpace).reverse
  match cs with
  | '+' :: rest => (pyIntCore rest).map (fun n => (n : Int))
  | '-' :: rest => (pyIntCore rest).map (fun n => -(n : Int))
  | _ => (pyIntCore cs).map (fun n => (n : Int))

/-- CSV file: a header line and the data rows, already split into fields
(the csv module's quoting layer is outside the scope of the claims). -/
structure CsvFile where
  header : List String
  body : List (List String)

/-- Parse one CSV data row into a Record, in source evaluation order
(lines 13-17): row[field] raises KeyError when the field is absent from the
header (modelled by the zip lookup failing) and int(...) raises ValueError on
a non-numeric value; either aborts the row as an error. -/
def parseRecord (header vals : List String) : Except String Record :=
  let dict := header.zip vals
  match alookup "Implementation" dict with
  | none => .error "KeyError: Implementation"
  | some impl =>
    match alookup "Function" dict with
    | none => .error "KeyError: Function"
    | some func =>
      match alookup "Facets" dict with
      | none => .error "KeyError: Facets"
      | some fs =>
        match pyInt fs with
        | none => .error "ValueError: Facets"
        | some facets =>
          match alookup "Selectors" dict with
          | none => .error "KeyError: Selectors"
          | some ss =>
            match pyInt ss with
            | none => .error "ValueError: Selectors"
            | some selectors =>
              match alookup "GasUsed" dict with
              | none => .error "KeyError: GasUsed"
              | some gs =>
                match pyInt gs with
                | none => .error "ValueError: GasUsed"
                | some gas => .ok ⟨impl, func, facets, selectors, gas⟩

/-- Sequential row processing: the first failing row aborts the whole run,
as an uncaught Python exception does in the ingest loop. -/
def mapME (f : α → Except ε β) : List α → Except ε (List β)
  | [] => .ok []
  | x :: xs =>
    match f x with
    | .error e => .error e
    | .ok y =>
      match mapME f xs with
      | .error e => .error e
      | .ok ys => .ok (y :: ys)

/-- Read and parse every data row of the CSV file (source lines 10-18). -/
def readRecords (csv : CsvFile) : Except String (List Record) :=
  mapME (parseRecord csv.header) csv.body

/-- Whole run: parse all rows, then render the report; the output document
exists only when every row parsed (the file write at source lines 71-72
happens after rendering completes). -/
def runReport (csv : CsvFile) : Except String String :=
  (readRecords csv).map renderReport

/-- Names of the required CSV fields (source lines 13-17). -/
def requiredFields : List String :=
  ["Implementation", "Function", "Facets", "Selectors", "GasUsed"]

/-- Keys of an association list are pairwise distinct. -/
def keysND (l : List (α × β)) : Prop := (l.map Prod.fst).Nodup

/-- Every level of the nested aggregation has distinct keys, as Python dicts do. -/
def WFData (d : Data) : Prop :=
  keysND d ∧ ∀ p ∈ d, keysND p.2 ∧ ∀ q ∈ p.2, keysND q.2

/-- Success test on a fallible computation. -/
def isOkE : Except ε α → Bool
  | Except.ok _ => true
  | Except.error _ => false

/-- Example row (ImplA, facets(), Facets=2, Selectors=5, GasUsed=100000). -/
def exampleRowA : Record := ⟨"ImplA", "facets()", 2, 5, 100000⟩

/-- Example row (ImplB, facets(), Facets=2, Selectors=5, GasUsed=120000). -/
def exampleRowB : Record := ⟨"ImplB", "facets()", 2, 5, 120000⟩

/-- Example row with an unrecognized function name. -/
def exampleRowZ : Record := ⟨"ImplZ", "unknownFn()", 1, 1, 10⟩

/-- Example row with negative numeric fields. -/
def exampleRowNeg : Record := ⟨"ImplA", "facets()", -1, -2, -1234⟩

/-- The spec's two-row example input. -/
def exampleInput : List Record := [exampleRowA, exampleRowB]

/-- CSV with a full header and one row whose GasUsed is not numeric. -/
def badCsv : CsvFile :=
  CsvFile.mk ["Implementation", "Function", "Facets", "Selectors", "GasUsed"]
    [["A", "facets()", "1", "2", "notanumber"]]

/-- CSV whose header lacks the required numeric fields, with one data row. -/
def headerlessCsv : CsvFile := CsvFile.mk ["Implementation"] [["A"]]

/-! Basic lemmas about the association-list model of Python dicts. -/

theorem alookup_upsert_self [DecidableEq α] (k : α) (v : β) (l : List (α × β)) :
    alookup k (upsert k v l) = some v := by
  induction l with
  | nil => simp [upsert, alookup]
  | cons p rest ih =>
    by_cases h : p.1 = k
    · simp [upsert, h, alookup]
    · simp [upsert, h, alookup, ih]

theorem alookup_upsert_ne [DecidableEq α] (k k' : α) (v : β) (l : List (α × β))
    (h : k' ≠ k) : alookup k' (upsert k v l) = alookup k' l := by
  induction l with
  | nil =>
    simp only [upsert, alookup]
    rw [if_neg (fun hh => h hh.symm)]
  | cons p rest ih =>
    by_cases hp : p.1 = k
    · simp only [upsert, if_pos hp, alookup]
      rw [if_neg (fun hh => h hh.symm), if_neg (fun hh => h (hp ▸ hh).symm)]
    · simp only [upsert, if_neg hp, alookup, ih]

theorem mem_upsert [DecidableEq α] {p : α × β} {k : α} {v : β} {l : List (α × β)}
    (h : p ∈ upsert k v l) : p = (k, v) ∨ p ∈ l := by
  induction l with
  | nil => simpa [upsert] using h
  | cons q rest ih =>
    by_cases hq : q.1 = k
    · simp only [upsert, if_pos hq, List.mem_cons] at h
      rcases h with h | h
      · exact Or.inl h
      · exact Or.inr (List.mem_cons_of_mem _ h)
    · simp only [upsert, if_neg hq, List.mem_cons] at h
      rcases h with h | h
      · exact Or.inr (h ▸ List.mem_cons_self _ _)
      · rcases ih h with h' | h'
        · exact Or.inl h'
        · exact Or.inr (List.mem_cons_of_mem _ h')

theorem alookup_mem [DecidableEq α] {k : α} {v : β} {l : List (α × β)}
    (h : alookup k l = some v) : (k, v) ∈ l := by
  induction l with
  | nil => simp [alookup] at h
  | cons p rest ih =>
    by_cases hp : p.1 = k
    · simp only [alookup, if_pos hp, Option.some.injEq] at h
      have hp2 : p = (k, v) := by
        obtain ⟨a, b⟩ := p
        simp only at hp h
        rw [hp, h]
      exact List.mem_cons.mpr (Or.inl hp2.symm)
    · simp only [alookup, if_neg hp] at h
      exact List.mem_cons_of_mem _ (ih h)

theorem mem_keys_upsert [DecidableEq α] {x k : α} {v : β} {l : List (α × β)}
    (h : x ∈ (upsert k v l).map Prod.fst) : x = k ∨ x ∈ l.map Prod.fst := by
  induction l with
  | nil => simpa [upsert] using h
  | cons q rest ih =>
    by_cases hq : q.1 = k
    · simp only [upsert, if_pos hq, List.map_cons, List.mem_cons] at h
      rcases h with h | h
      · exact Or.inl h
      · exact Or.inr (by simp [h])
    · simp only [upsert, if_neg hq, List.map_cons, List.mem_cons] at h
      rcases h with h | h
      · exact Or.inr (by simp [h])
      · rcases ih h with h' | h'
        · exact Or.inl h'
        · exact Or.inr (by simp [List.mem_cons]; right; simpa using h')

theorem keys_nodup_upsert [DecidableEq α] {k : α} {v : β} {l : List (α × β)}
    (h : (l.map Prod.fst).Nodup) : ((upsert k v l).map Prod.fst).Nodup := by
  induction l with
  | nil => simp [upsert]
  | cons q rest ih =>
    simp only [List.map_cons, List.nodup_cons] at h
    by_cases hq : q.1 = k
    · simp only [upsert, if_pos hq, List.map_cons, List.nodup_cons]
      exact ⟨hq ▸ h.1, h.2⟩
    · simp only [upsert, if_neg hq, List.map_cons, List.nodup_cons]
      refine ⟨fun hmem => ?_, ih h.2⟩
      rcases mem_keys_upsert hmem with h' | h'
      · exact hq h'
      · exact h.1 h'

theorem alookup_eq_some_of_mem_nodup [DecidableEq α] {k : α} {v : β} {l : List (α × β)}
    (hnd : (l.map Prod.fst).Nodup) (h : (k, v) ∈ l) : alookup k l = some v := by
  induction l with
  | nil => simp at h
  | cons p rest ih =>
    simp only [List.map_cons, List.nodup_cons] at hnd
    rcases List.mem_cons.mp h with h | h
    · simp [alookup, ← h]
    · have hne : p.1 ≠ k := by
        intro hk
        exact hnd.1 (hk ▸ (List.mem_map.mpr ⟨(k, v), h, rfl⟩))
      simp [alookup, hne, ih hnd.2 h]

theorem alookup_zip_none [DecidableEq α] (k : α) (header : List α) (vals : List β)
    (h : k ∉ header) : alookup k (header.zip vals) = none := by
  induction header generalizing vals with
  | nil => simp [alookup]
  | cons a rest ih =>
    cases vals with
    | nil => simp [alookup]
    | cons b bs =>
      simp only [List.mem_cons, not_or] at h
      simp only [List.zip_cons_cons, alookup]
      rw [if_neg (fun hh => h.1 hh.symm)]
      exact ih bs h.2

/-! Characterization of the ingest loop. -/

theorem lookup3_ingestRecord (d : Data) (r : Record) (f : String) (k : Int × Int)
    (i : String) :
    lookup3 (ingestRecord d r) f k i =
      if r.func = f ∧ (r.selectors, r.facets) = k ∧ r.impl = i then some r.gas
      else lookup3 d f k i := by
  simp only [ingestRecord, lookup3]
  by_cases hf : r.func = f
  · subst hf
    rw [alookup_upsert_self]
    simp only [Option.getD_some]
    by_cases hk : (r.selectors, r.facets) = k
    · subst hk
      rw [alookup_upsert_self]
      simp only [Option.getD_some]
      by_cases hi : r.impl = i
      · subst hi
        rw [alookup_upsert_self]
        simp
      · rw [alookup_upsert_ne _ _ _ _ (fun hh => hi hh.symm),
          if_neg (fun hh => hi hh.2.2)]
    · rw [alookup_upsert_ne _ _ _ _ (fun hh => hk hh.symm),
        if_neg (fun hh => hk hh.2.1)]
  · rw [alookup_upsert_ne _ _ _ _ (fun hh => hf hh.symm),
      if_neg (fun hh => hf hh.1)]

theorem ingest_append_single (rows : List Record) (r : Record) :
    ingest (rows ++ [r]) = ingestRecord (ingest rows) r := by
  simp [ingest, List.foldl_append]

theorem lookup3_ingest (rows : List Record) (f : String) (k : Int × Int) (i : String) :
    lookup3 (ingest rows) f k i =
      ((rows.filter
          (fun r => decide (r.func = f ∧ (r.selectors, r.facets) = k ∧ r.impl = i))).getLast?).map
        Record.gas := by
  induction rows using List.reverseRecOn with
  | nil => rfl
  | append_singleton rows r ih =>
    rw [ingest_append_single, lookup3_ingestRecord]
    by_cases h : r.func = f ∧ (r.selectors, r.facets) = k ∧ r.impl = i
    · rw [if_pos h, List.filter_append]
      simp [h]
    · rw [if_neg h, List.filter_append, ih]
      simp [h]

/-! Well-formedness of the aggregation: keys are unique at every level. -/

theorem wf_getD_funcData {d : Data} (h : WFData d) (f : String) :
    keysND ((alookup f d).getD ([] : FuncData)) ∧
      ∀ q ∈ (alookup f d).getD ([] : FuncData), keysND q.2 := by
  cases hl : alookup f d with
  | none => simp [keysND]
  | some fd =>
    have := h.2 (f, fd) (alookup_mem hl)
    simpa using this

theorem wf_ingestRecord {d : Data} (h : WFData d) (r : Record) :
    WFData (ingestRecord d r) := by
  obtain ⟨hfd, hq⟩ := wf_getD_funcData h r.func
  simp only [ingestRecord]
  refine ⟨keys_nodup_upsert h.1, ?_⟩
  intro p hp
  rcases mem_upsert hp with hp' | hp'
  · subst hp'
    refine ⟨keys_nodup_upsert hfd, ?_⟩
    intro q hq'
    rcases mem_upsert hq' with hq'' | hq''
    · subst hq''
      apply keys_nodup_upsert
      cases him : alookup (r.selectors, r.facets) ((alookup r.func d).getD []) with
      | none => simp [keysND]
      | some im0 =>
        have := hq ((r.selectors, r.facets), im0) (alookup_mem him)
        simpa using this
    · exact hq q hq''
  · exact h.2 p hp'

theorem wf_foldl {d : Data} (h : WFData d) (rows : List Record) :
    WFData (rows.foldl ingestRecord d) := by
  induction rows generalizing d with
  | nil => simpa using h
  | cons r rest ih => exact ih (wf_ingestRecord h r)

theorem wf_ingest (rows : List Record) : WFData (ingest rows) :=
  wf_foldl ⟨by simp [keysND], by simp⟩ rows

/-! Membership in the implementation column set. -/

theorem lookup3_eq_some_chain {d : Data} {f : String} {k : Int × Int} {i : String} {g : Int}
    (h : lookup3 d f k i = some g) :
    ∃ fd im, alookup f d = some fd ∧ alookup k fd = some im ∧ alookup i im = some g := by
  unfold lookup3 at h
  cases hf : alookup f d with
  | none => rw [hf] at h; simp [alookup] at h
  | some fd =>
    rw [hf] at h
    simp only [Option.getD_some] at h
    cases hk : alookup k fd with
    | none => rw [hk] at h; simp [alookup] at h
    | some im =>
      rw [hk] at h
      simp only [Option.getD_some] at h
      exact ⟨fd, im, rfl, hk, h⟩

theorem mem_allImpls_iff {s : String} {d : Data} :
    s ∈ allImpls d ↔ ∃ p ∈ d, ∃ q ∈ p.2, ∃ e ∈ q.2, e.1 = s := by
  simp [allImpls, List.mem_flatMap, List.mem_map]

theorem mem_allImpls_of_lookup3 {d : Data} {f : String} {k : Int × Int} {i : String} {g : Int}
    (h : lookup3 d f k i = some g) : i ∈ allImpls d := by
  rcases lookup3_eq_some_chain h with ⟨fd, im, hf, hk, hi⟩
  exact mem_allImpls_iff.mpr
    ⟨(f, fd), alookup_mem hf, (k, im), alookup_mem hk, (i, g), alookup_mem hi, rfl⟩

theorem mem_allImpls_ingestRecord {s : String} {d : Data} {r : Record}
    (h : s ∈ allImpls (ingestRecord d r)) : s = r.impl ∨ s ∈ allImpls d := by
  rcases mem_allImpls_iff.mp h with ⟨p, hp, q, hq, e, he, hes⟩
  simp only [ingestRecord] at hp
  rcases mem_upsert hp with hp' | hp'
  · subst hp'
    simp only at hq
    rcases mem_upsert hq with hq' | hq'
    · subst hq'
      simp only at he
      rcases mem_upsert he with he' | he'
      · subst he'
        exact Or.inl hes.symm
      · right
        cases him : alookup (r.selectors, r.facets) ((alookup r.func d).getD []) with
        | none => rw [him] at he'; simp at he'
        | some im0 =>
          rw [him] at he'
          simp only [Option.getD_some] at he'
          cases hfd : alookup r.func d with
          | none => rw [hfd] at him; simp [alookup] at him
          | some fd0 =>
            rw [hfd] at him
            simp only [Option.getD_some] at him
            exact mem_allImpls_iff.mpr
              ⟨(r.func, fd0), alookup_mem hfd,
                ((r.selectors, r.facets), im0), alookup_mem him, e, he', hes⟩
    · right
      cases hfd : alookup r.func d with
      | none => rw [hfd] at hq'; simp at hq'
      | some fd0 =>
        rw [hfd] at hq'
        simp only [Option.getD_some] at hq'
        exact mem_allImpls_iff.mpr ⟨(r.func, fd0), alookup_mem hfd, q, hq', e, he, hes⟩
  · exact Or.inr (mem_allImpls_iff.mpr ⟨p, hp', q, hq, e, he, hes⟩)

theorem mem_allImpls_ingest {s : String} {rows : List Record}
    (h : s ∈ allImpls (ingest rows)) : ∃ r ∈ rows, r.impl = s := by
  induction rows using List.reverseRecOn with
  | nil => simp [ingest, allImpls] at h
  | append_singleton rows r ih =>
    rw [ingest_append_single] at h
    rcases mem_allImpls_ingestRecord h with h' | h'
    · exact ⟨r, by simp, h'.symm⟩
    · rcases ih h' with ⟨r', hr', hs⟩
      exact ⟨r', by simp [hr'], hs⟩

theorem lookup3_self_mem {rows : List Record} {r : Record} (h : r ∈ rows) :
    ∃ g, lookup3 (ingest rows) r.func (r.selectors, r.facets) r.impl = some g := by
  rw [lookup3_ingest]
  have hmem : r ∈ rows.filter
      (fun x => decide (x.func = r.func ∧ (x.selectors, x.facets) = (r.selectors, r.facets)
        ∧ x.impl = r.impl)) :=
    List.mem_filter.mpr ⟨h, by simp⟩
  have hne := List.ne_nil_of_mem hmem
  have hsome := List.getLast?_isSome.mpr hne
  rcases Option.isSome_iff_exists.mp hsome with ⟨rl, hrl⟩
  exact ⟨rl.gas, by rw [hrl]; rfl⟩

theorem mem_implementationsOf_iff_allImpls {s : String} {rows : List Record} :
    s ∈ implementationsOf rows ↔ s ∈ allImpls (ingest rows) := by
  unfold implementationsOf implementationsOfData
  rw [(List.perm_insertionSort _ _).mem_iff, List.mem_dedup]

/-! Ordering lemmas for the rendered tables. -/

theorem keyLt_of_le_ne {a b : Int × Int} (hle : keyLe a b) (hne : a ≠ b) : keyLt a b := by
  rcases a with ⟨a1, a2⟩
  rcases b with ⟨b1, b2⟩
  have hne2 : ¬(a1 = b1 ∧ a2 = b2) := by
    intro hh
    exact hne (by rw [hh.1, hh.2])
  unfold keyLe at hle
  unfold keyLt
  dsimp only at hle ⊢
  omega

theorem keysND_funcRowsOf (rows : List Record) (f : String) :
    keysND (funcRowsOf rows f) :=
  (wf_getD_funcData (wf_ingest rows) f).1

theorem sortKeyRows_pairwise_lt (rows : List Record) (f : String) :
    List.Pairwise (fun p q : (Int × Int) × ImplMap => keyLt p.1 q.1)
      (sortKeyRows (funcRowsOf rows f)) := by
  have hsorted : List.Sorted rowLe (sortKeyRows (funcRowsOf rows f)) :=
    List.sorted_insertionSort rowLe (funcRowsOf rows f)
  have hnd : ((sortKeyRows (funcRowsOf rows f)).map Prod.fst).Nodup := by
    have hperm := (List.perm_insertionSort rowLe (funcRowsOf rows f)).map Prod.fst
    exact hperm.nodup_iff.mpr (keysND_funcRowsOf rows f)
  have hne : List.Pairwise (fun p q : (Int × Int) × ImplMap => p.1 ≠ q.1)
      (sortKeyRows (funcRowsOf rows f)) := List.pairwise_map.mp hnd
  exact (hsorted.and hne).imp (fun h => keyLt_of_le_ne h.1 h.2)

theorem string_eq_of_data_eq {a b : String} (h : a.data = b.data) : a = b := by
  cases a
  cases b
  exact congrArg String.mk h

theorem charListLt_of_le_ne :
    ∀ x y : List Char, charListLe x y = true → x ≠ y → charListLt x y = true
  | [], [], _, hne => absurd rfl hne
  | [], _ :: _, _, _ => rfl
  | _ :: _, [], h, _ => by simp [charListLe] at h
  | a :: as, b :: bs, h, hne => by
    simp only [charListLe, charListLt] at h ⊢
    by_cases hab : a.toNat < b.toNat
    · simp [hab]
    · by_cases hba : b.toNat < a.toNat
      · simp [hab, hba] at h
      · simp only [hab, hba, if_neg, ite_false] at h ⊢
        have hchar : a = b := by
          have hn : a.toNat = b.toNat := by omega
          exact Char.ext (UInt32.ext hn)
        apply charListLt_of_le_ne as bs h
        intro hh
        exact hne (by rw [hchar, hh])

theorem strLt_of_le_ne {a b : String} (hle : strLe a b) (hne : a ≠ b) : strLt a b := by
  apply charListLt_of_le_ne a.data b.data hle
  intro hh
  exact hne (string_eq_of_data_eq hh)

theorem implementationsOf_pairwise_lt (rows : List Record) :
    List.Pairwise strLt (implementationsOf rows) := by
  unfold implementationsOf implementationsOfData
  have hsorted : List.Sorted strLe
      (List.insertionSort strLe (allImpls (ingest rows)).dedup) :=
    List.sorted_insertionSort strLe (allImpls (ingest rows)).dedup
  have hnd : (List.insertionSort strLe (allImpls (ingest rows)).dedup).Nodup :=
    (List.perm_insertionSort strLe
      (allImpls (ingest rows)).dedup).nodup_iff.mpr (List.nodup_dedup _)
  exact (hsorted.and hnd).imp (fun h => strLt_of_le_ne h.1 h.2)

/-- Membership of a rendered data row in its table's line list. -/
theorem dataLine_mem_tableLines {rows : List Record} {f : String}
    {p : (Int × Int) × ImplMap} (hp : p ∈ funcRowsOf rows f) (impls : List String) :
    dataLine impls p ∈ tableLines f (funcRowsOf rows f) impls := by
  unfold tableLines
  have hmem : p ∈ sortKeyRows (funcRowsOf rows f) :=
    ((List.perm_insertionSort rowLe (funcRowsOf rows f)).mem_iff).mpr hp
  exact List.mem_append.mpr
    (Or.inl (List.mem_append.mpr (Or.inr (List.mem_map.mpr ⟨p, hmem, rfl⟩))))

/-! Function-name isolation: records of other functions never touch
a function's slot of the aggregation. -/

theorem alookup_ingestRecord_func (d : Data) (r : Record) (f : String) :
    alookup f (ingestRecord d r) =
      if r.func = f then
        some (upsert (r.selectors, r.facets)
          (upsert r.impl r.gas
            ((alookup (r.selectors, r.facets) ((alookup f d).getD [])).getD []))
          ((alookup f d).getD []))
      else alookup f d := by
  simp only [ingestRecord]
  by_cases hf : r.func = f
  · subst hf
    rw [alookup_upsert_self, if_pos rfl]
  · rw [alookup_upsert_ne _ _ _ _ (fun hh => hf hh.symm), if_neg hf]

theorem alookup_foldl_filter (f : String) (rows : List Record) :
    ∀ d₁ d₂ : Data, alookup f d₁ = alookup f d₂ →
      alookup f ((rows.filter (fun r => r.func == f)).foldl ingestRecord d₁) =
        alookup f (rows.foldl ingestRecord d₂) := by
  induction rows with
  | nil =>
    intro d₁ d₂ h
    simpa using h
  | cons r rest ih =>
    intro d₁ d₂ h
    by_cases hr : r.func = f
    · have hfil : (r :: rest).filter (fun r => r.func == f) =
          r :: rest.filter (fun r => r.func == f) := by simp [hr]
      rw [hfil]
      simp only [List.foldl_cons]
      apply ih
      rw [alookup_ingestRecord_func, alookup_ingestRecord_func, if_pos hr, if_pos hr, h]
    · have hfil : (r :: rest).filter (fun r => r.func == f) =
          rest.filter (fun r => r.func == f) := by simp [hr]
      rw [hfil]
      simp only [List.foldl_cons]
      apply ih
      rw [alookup_ingestRecord_func, if_neg hr, h]

theorem funcRowsOf_filter (rows : List Record) (f : String) :
    funcRowsOf (rows.filter (fun r => r.func == f)) f = funcRowsOf rows f := by
  unfold funcRowsOf ingest
  rw [alookup_foldl_filter f rows [] [] rfl]

/-! Error propagation for the parse phase. -/

theorem isOkE_ok (v : α) : isOkE (Except.ok v : Except ε α) = true := rfl

theorem isOkE_error (e : ε) : isOkE (Except.error e : Except ε α) = false := rfl

theorem mapME_isOk_false_of_mem {f : α → Except ε β} {l : List α} {x : α}
    (hx : x ∈ l) (hf : isOkE (f x) = false) : isOkE (mapME f l) = false := by
  induction l with
  | nil => simp at hx
  | cons y ys ih =>
    unfold mapME
    rcases List.mem_cons.mp hx with h | h
    · subst h
      cases hfy : f x with
      | error e => rfl
      | ok v => rw [hfy, isOkE_ok] at hf; cases hf
    · cases hfy : f y with
      | error e => rfl
      | ok v =>
        cases hm : mapME f ys with
        | error e => rfl
        | ok vs =>
          have := ih h
          rw [hm, isOkE_ok] at this
          cases this

theorem mapME_isOk_iff {f : α → Except ε β} {l : List α} :
    isOkE (mapME f l) = true ↔ ∀ x ∈ l, isOkE (f x) = true := by
  induction l with
  | nil => simp [mapME, isOkE]
  | cons y ys ih =>
    unfold mapME
    cases hfy : f y with
    | error e =>
      constructor
      · intro hh
        cases hh
      · intro hall
        have hy := hall y (List.mem_cons_self y ys)
        rw [hfy, isOkE_error] at hy
        cases hy
    | ok v =>
      cases hm : mapME f ys with
      | error e =>
        constructor
        · intro hh
          cases hh
        · intro hall
          have hys : isOkE (mapME f ys) = true :=
            ih.mpr (fun x hx => hall x (List.mem_cons_of_mem _ hx))
          rw [hm, isOkE_error] at hys
          cases hys
      | ok vs =>
        constructor
        · intro _ x hx
          rcases List.mem_cons.mp hx with h | h
          · rw [h, hfy, isOkE_ok]
          · exact (ih.mp (by rw [hm]; rfl)) x h
        · intro _
          rfl

theorem parseRecord_ok_fields {header vals : List String} {r : Record}
    (h : parseRecord header vals = Except.ok r) :
    ∀ name ∈ requiredFields, (alookup name (header.zip vals)).isSome = true := by
  simp only [parseRecord] at h
  repeat' split at h
  all_goals try (exfalso; exact Except.noConfusion h)
  intro name hname
  simp only [requiredFields, List.mem_cons, List.not_mem_nil, or_false] at hname
  rcases hname with rfl | rfl | rfl | rfl | rfl <;> simp_all

theorem runReport_isOk_false_of_badrow {csv : CsvFile} {vals : List String}
    (hmem : vals ∈ csv.body) (hbad : isOkE (parseRecord csv.header vals) = false) :
    isOkE (runReport csv) = false := by
  unfold runReport readRecords
  cases hm : mapME (parseRecord csv.header) csv.body with
  | error e => rfl
  | ok rs =>
    have hall := mapME_isOk_false_of_mem hmem hbad
    rw [hm, isOkE_ok] at hall
    cases hall

theorem runReport_isOk_false_of_missing_header {csv : CsvFile} {name : String}
    (hname : name ∈ requiredFields) (hmiss : name ∉ csv.header) (hne : csv.body ≠ []) :
    isOkE (runReport csv) = false := by
  cases hb : csv.body with
  | nil => exact absurd hb hne
  | cons v vs =>
    have hmem : v ∈ csv.body := by rw [hb]; exact List.mem_cons_self v vs
    apply runReport_isOk_false_of_badrow hmem
    cases hp : parseRecord csv.header v with
    | error e => rfl
    | ok r =>
      have hfield := parseRecord_ok_fields hp name hname
      rw [alookup_zip_none name csv.header v hmiss] at hfield
      cases hfield

theorem runReport_isOk_iff {csv : CsvFile} :
    isOkE (runReport csv) = true ↔
      ∀ vals ∈ csv.body, isOkE (parseRecord csv.header vals) = true := by
  unfold runReport readRecords
  cases hm : mapME (parseRecord csv.header) csv.body with
  | error e =>
    constructor
    · intro hh
      cases hh
    · intro hall
      have := mapME_isOk_iff.mpr hall
      rw [hm, isOkE_error] at this
      cases this
  | ok rs =>
    constructor
    · intro _
      exact mapME_isOk_iff.mp (by rw [hm]; rfl)
    · intro _
      rfl

/-- Column set membership coincides with the implementation names of the input records. -/
theorem mem_implementationsOf_iff_exists {s : String} {rows : List Record} :
    s ∈ implementationsOf rows ↔ ∃ r ∈ rows, r.impl = s := by
  constructor
  · intro hs
    exact mem_allImpls_ingest (mem_implementationsOf_iff_allImpls.mp hs)
  · rintro ⟨r, hr, hs⟩
    subst hs
    rcases lookup3_self_mem hr with ⟨g, hg⟩
    exact mem_implementationsOf_iff_allImpls.mpr (mem_allImpls_of_lookup3 hg)

/-! Claim theorems. -/

/-- Claim C1: every (function, selectors, facets, implementation) tuple of the input
whose function is one of the two recognized names appears in that function's rendered
table: the aggregation holds a measurement g for the tuple, the table's line list
contains the data row of the tuple's (selectors, facets) key, that row's cell for the
implementation is exactly g thousands-separated, and the implementation is one of the
table's columns; moreover 1234567 is rendered "1,234,567". -/
theorem claim_C1_tuples_rendered :
    thousandsSep 1234567 = "1,234,567" ∧
    ∀ (rows : List Record) (r : Record), r ∈ rows →
      (r.func = "facets()" ∨ r.func = "facetAddresses()") →
      ∃ g im,
        lookup3 (ingest rows) r.func (r.selectors, r.facets) r.impl = some g ∧
        alookup (r.selectors, r.facets) (funcRowsOf rows r.func) = some im ∧
        dataLine (implementationsOf rows) ((r.selectors, r.facets), im) ∈
          tableLines r.func (funcRowsOf rows r.func) (implementationsOf rows) ∧
        cellString im r.impl = thousandsSep g ∧
        r.impl ∈ implementationsOf rows := by
  constructor
  · rfl
  · intro rows r hmem _hrec
    rcases lookup3_self_mem hmem with ⟨g, hg⟩
    rcases lookup3_eq_some_chain hg with ⟨fd, im, hf, hk, hi⟩
    have hfd : funcRowsOf rows r.func = fd := by
      unfold funcRowsOf
      rw [hf]
      rfl
    refine ⟨g, im, hg, ?_, ?_, ?_, ?_⟩
    · rw [hfd]
      exact hk
    · apply dataLine_mem_tableLines
      rw [hfd]
      exact alookup_mem hk
    · unfold cellString
      rw [hi]
    · exact mem_implementationsOf_iff_allImpls.mpr (mem_allImpls_of_lookup3 hg)

/-- Witness for claim C1 at the spec's example input. -/
theorem claim_C1_tuples_rendered_witness :
    ∃ g im,
      lookup3 (ingest exampleInput) exampleRowA.func
          (exampleRowA.selectors, exampleRowA.facets) exampleRowA.impl = some g ∧
      alookup (exampleRowA.selectors, exampleRowA.facets)
          (funcRowsOf exampleInput exampleRowA.func) = some im ∧
      dataLine (implementationsOf exampleInput)
          ((exampleRowA.selectors, exampleRowA.facets), im) ∈
        tableLines exampleRowA.func (funcRowsOf exampleInput exampleRowA.func)
          (implementationsOf exampleInput) ∧
      cellString im exampleRowA.impl = thousandsSep g ∧
      exampleRowA.impl ∈ implementationsOf exampleInput :=
  claim_C1_tuples_rendered.2 exampleInput exampleRowA (by decide) (Or.inl rfl)

/-- Claim C2: data rows of a rendered table are strictly ascending in the
(selectors, facets) key under lexicographic order (selector count first), the columns
are strictly ascending implementation names, and the two tables assembled in one run
share the identical header row (hence identical column order). -/
theorem claim_C2_ordering (rows : List Record) (f : String) :
    List.Pairwise (fun p q : (Int × Int) × ImplMap => keyLt p.1 q.1)
      (sortKeyRows (funcRowsOf rows f)) ∧
    List.Pairwise strLt (implementationsOf rows) ∧
    (tableLines "facets()" (funcRowsOf rows "facets()") (implementationsOf rows))[1]? =
      (tableLines "facetAddresses()" (funcRowsOf rows "facetAddresses()")
        (implementationsOf rows))[1]? :=
  ⟨sortKeyRows_pairwise_lt rows f, implementationsOf_pairwise_lt rows, rfl⟩

/-- Claim C3: the stored measurement at any (function, key, implementation) slot is
exactly the gas of the last input record addressing that slot (later records overwrite
earlier ones, never erroring); in particular a record appended at the end always
determines its own slot's value. -/
theorem claim_C3_last_write_wins :
    (∀ (rows : List Record) (f : String) (k : Int × Int) (i : String),
      lookup3 (ingest rows) f k i =
        ((rows.filter
            (fun r =>
              decide (r.func = f ∧ (r.selectors, r.facets) = k ∧ r.impl = i))).getLast?).map
          Record.gas) ∧
    (∀ (rows : List Record) (r : Record),
      lookup3 (ingest (rows ++ [r])) r.func (r.selectors, r.facets) r.impl = some r.gas) := by
  refine ⟨lookup3_ingest, ?_⟩
  intro rows r
  rw [ingest_append_single, lookup3_ingestRecord]
  simp

/-- Claim C4: the column set of every table is exactly the set of implementation names
of the input records (recognized function or not); a missing measurement renders as
empty text; a key present in a function's data always contributes its rendered row to
the table's line list; and every data row carries one cell per column plus the key cell
(no dropped rows or columns). -/
theorem claim_C4_columns (rows : List Record) :
    (∀ s, s ∈ implementationsOf rows ↔ ∃ r ∈ rows, r.impl = s) ∧
    (∀ (im : ImplMap) (i : String), alookup i im = none → cellString im i = "") ∧
    (∀ (f : String) (p : (Int × Int) × ImplMap), p ∈ funcRowsOf rows f →
      dataLine (implementationsOf rows) p ∈
        tableLines f (funcRowsOf rows f) (implementationsOf rows)) ∧
    (∀ (im : ImplMap) (k : Int × Int),
      (dataCells (implementationsOf rows) k im).length =
        (implementationsOf rows).length + 1) := by
  refine ⟨fun _ => mem_implementationsOf_iff_exists, ?_, ?_, ?_⟩
  · intro im i hnone
    unfold cellString
    rw [hnone]
  · intro f p hp
    exact dataLine_mem_tableLines hp _
  · intro im k
    simp [dataCells]

/-- Witness for claim C4: an implementation seen only under an unrecognized function
still becomes a column; a missing measurement renders empty; a recorded key's row
appears in the table. -/
theorem claim_C4_columns_witness :
    "ImplZ" ∈ implementationsOf [exampleRowA, exampleRowZ] ∧
    cellString [("ImplA", (5 : Int))] "ImplB" = "" ∧
    dataLine (implementationsOf exampleInput)
        ((5, 2), [("ImplA", 100000), ("ImplB", 120000)]) ∈
      tableLines "facets()" (funcRowsOf exampleInput "facets()")
        (implementationsOf exampleInput) :=
  ⟨((claim_C4_columns [exampleRowA, exampleRowZ]).1 "ImplZ").mpr ⟨exampleRowZ, by decide, rfl⟩,
   (claim_C4_columns []).2.1 [("ImplA", 5)] "ImplB" (by decide),
   (claim_C4_columns exampleInput).2.2.1 "facets()"
     ((5, 2), [("ImplA", 100000), ("ImplB", 120000)]) (by decide)⟩

/-- Counterexample to claim C5 as stated: a record with an unrecognized function name
does contribute to the rendered tables — its implementation name joins the shared
column set, so the facets() table rendered with the record differs from the one
rendered without it. -/
theorem claim_C5_counterexample :
    implementationsOf [exampleRowA, exampleRowZ] ≠ implementationsOf [exampleRowA] ∧
    tableLines "facets()" (funcRowsOf [exampleRowA, exampleRowZ] "facets()")
        (implementationsOf [exampleRowA, exampleRowZ]) ≠
      tableLines "facets()" (funcRowsOf [exampleRowA] "facets()")
        (implementationsOf [exampleRowA]) := by
  constructor <;> decide

/-- Claim C5 (amended): a record whose function is neither facets() nor
facetAddresses() contributes no row data to any function's table — the row data of a
function is determined solely by the records bearing that very function name — and is
not an error; its implementation name however still joins the shared column set. -/
theorem claim_C5_amended (rows : List Record) (f : String) :
    funcRowsOf (rows.filter (fun r => r.func == f)) f = funcRowsOf rows f ∧
    (∀ s, s ∈ implementationsOf rows ↔ ∃ r ∈ rows, r.impl = s) :=
  ⟨funcRowsOf_filter rows f, fun _ => mem_implementationsOf_iff_exists⟩

/-- Counterexample to claim C6 as stated: for the two example rows (Facets=2,
Selectors=5) the data row's first cell is "5/2" (selectors/facets), so the claimed
row with first cell "2/5" does not occur in the rendered facets() table. -/
theorem claim_C6_counterexample :
    "| 2/5 | 100,000 | 120,000 |" ∉
      tableLines "facets()" (funcRowsOf exampleInput "facets()")
        (implementationsOf exampleInput) := by
  decide

/-- Claim C6 (amended): the two example rows produce a facets() table with columns
ImplA, ImplB in that order and exactly one data row whose cells are "5/2",
"100,000", "120,000". -/
theorem claim_C6_amended :
    implementationsOf exampleInput = ["ImplA", "ImplB"] ∧
    tableLines "facets()" (funcRowsOf exampleInput "facets()")
        (implementationsOf exampleInput) =
      ["## facets() Function Gas Costs\n",
       "| Selectors/Facets | ImplA | ImplB |",
       "|----------------|-----|-----|",
       "| 5/2 | 100,000 | 120,000 |",
       "\n---\n"] := by
  constructor <;> decide

/-- Counterexample to claim C7 as stated: with every required numeric header field
absent but an empty data section, the run succeeds and the output document is
produced — a missing header field alone is not fatal when there is no data row. -/
theorem claim_C7_counterexample :
    "Facets" ∉ (CsvFile.mk ["Implementation"] []).header ∧
    runReport (CsvFile.mk ["Implementation"] []) = Except.ok (renderReport []) :=
  ⟨by decide, rfl⟩

/-- Claim C7 (amended): an unparsable or field-missing data row aborts the whole run
with no output; a required header field absent from the header aborts the run whenever
at least one data row is present; and the run produces output exactly when every data
row parses — so output exists only after ingest completed in full. -/
theorem claim_C7_amended :
    (∀ (csv : CsvFile) (vals : List String), vals ∈ csv.body →
        isOkE (parseRecord csv.header vals) = false → isOkE (runReport csv) = false) ∧
    (∀ (csv : CsvFile) (name : String), name ∈ requiredFields → name ∉ csv.header →
        csv.body ≠ [] → isOkE (runReport csv) = false) ∧
    (∀ csv : CsvFile, isOkE (runReport csv) = true ↔
        ∀ vals ∈ csv.body, isOkE (parseRecord csv.header vals) = true) :=
  ⟨fun _ _ hmem hbad => runReport_isOk_false_of_badrow hmem hbad,
   fun _ _ hname hmiss hne => runReport_isOk_false_of_missing_header hname hmiss hne,
   fun _ => runReport_isOk_iff⟩

/-- Witness for claim C7 (amended): a non-numeric GasUsed aborts the run, and a header
missing the Facets field aborts the run when a data row is present. -/
theorem claim_C7_amended_witness :
    isOkE (runReport badCsv) = false ∧ isOkE (runReport headerlessCsv) = false :=
  ⟨claim_C7_amended.1 badCsv ["A", "facets()", "1", "2", "notanumber"] (by decide) (by decide),
   claim_C7_amended.2.1 headerlessCsv "Facets" (by decide) (by decide) (by decide)⟩

/-- Claim C8: the whole transform is deterministic — two runs on the same input file
contents produce the identical output document. -/
theorem claim_C8_deterministic (csv₁ csv₂ : CsvFile) (h : csv₁ = csv₂) :
    runReport csv₁ = runReport csv₂ := by
  rw [h]

/-- Witness for claim C8 at a concrete input. -/
theorem claim_C8_deterministic_witness :
    runReport badCsv = runReport badCsv :=
  claim_C8_deterministic badCsv badCsv rfl

/-- Claim C9: a function with zero recorded keys still renders as heading, header row
and separator row with no data rows; and a function named by no input record has zero
recorded keys. -/
theorem claim_C9_empty_table (funcName : String) (impls : List String) :
    tableLines funcName [] impls =
      [headingLine funcName, headerLine impls, sepLine impls, "\n---\n"] ∧
    (∀ rows : List Record, rows.filter (fun r => r.func == funcName) = [] →
      funcRowsOf rows funcName = []) := by
  constructor
  · simp [tableLines, sortKeyRows]
  · intro rows hfil
    have heq := funcRowsOf_filter rows funcName
    rw [hfil] at heq
    exact heq.symm.trans rfl

/-- Witness for claim C9: the example input names no facetAddresses() record, and its
facetAddresses() table renders with no data rows. -/
theorem claim_C9_empty_table_witness :
    tableLines "facetAddresses()" [] ["ImplA", "ImplB"] =
      [headingLine "facetAddresses()", headerLine ["ImplA", "ImplB"],
        sepLine ["ImplA", "ImplB"], "\n---\n"] ∧
    funcRowsOf exampleInput "facetAddresses()" = [] :=
  ⟨(claim_C9_empty_table "facetAddresses()" ["ImplA", "ImplB"]).1,
   (claim_C9_empty_table "facetAddresses()" []).2 exampleInput (by decide)⟩

/-- Claim C10: no non-negativity check exists — a row with negative Facets, Selectors
and GasUsed parses without error, and the negative measurement renders with sign and
thousands separators ("-1,234"), key cell included. -/
theorem claim_C10_negative_values :
    pyInt "-1234" = some (-1234) ∧
    parseRecord requiredFields ["ImplA", "facets()", "-1", "-2", "-1234"] =
      Except.ok exampleRowNeg ∧
    thousandsSep (-1234) = "-1,234" ∧
    tableLines "facets()" (funcRowsOf [exampleRowNeg] "facets()")
        (implementationsOf [exampleRowNeg]) =
      ["## facets() Function Gas Costs\n",
       "| Selectors/Facets | ImplA |",
       "|----------------|-----|",
       "| -2/-1 | -1,234 |",
       "\n---\n"] := by
  refine ⟨by decide, by rfl, by decide, by decide⟩

end BenchReport
